import Mathlib

set_option autoImplicit false

/-!
Verification of the task-graph simulation library against its specification.

The definitions below are shallow embeddings of the C++ sources:
processing-unit arbitration (`ProcessUnit_Base`), the Subject/Observer
value-propagation layer, the observer manager, the if-vertex activation
pipeline, transaction validation in the interconnect, and the payload pool.
Machine pointers are modelled as abstract addresses (`Nat`), byte buffers as
`List Nat`, `std::map` as association lists sorted by insertion discipline,
and SystemC event notification as emitted `(event, delay)` records.
-/

namespace VcUtils

/-! ## Processing unit (ProcessUnit_Base.cpp) -/

/-- A scheduled SystemC event notification: which event, and the delay
(in simulated time units) after the current instant. -/
structure Notif where
  event : Nat
  delay : Nat
  deriving DecidableEq, Repr

/-- State of `ProcessUnit_Base`: the `m_coreUsed` flag and the
`m_processWaitingQueue` FIFO of waiting core-free events. -/
structure PUState where
  coreUsed : Bool
  waitQueue : List Nat
  deriving DecidableEq, Repr

/-- `ProcessUnit_Base::isCoreUsed` (request_core): if the core is used, push
the event onto the waiting queue; otherwise set the flag and notify the event
at delta-time zero.  Returns the new state and the emitted notification. -/
def isCoreUsed (s : PUState) (ev : Nat) : PUState × Option Notif :=
  if s.coreUsed then
    ({ s with waitQueue := s.waitQueue ++ [ev] }, none)
  else
    ({ s with coreUsed := true }, some ⟨ev, 0⟩)

/-- `ProcessUnit_Base::freeUsedCore` (release_core): if the waiting queue is
non-empty, notify its front at the given latency and pop it; otherwise clear
the flag, and the releasing task itself waits for the latency.  Returns the
new state, the emitted notification, and the wait performed by the releasing
task. -/
def freeUsedCore (s : PUState) (latency : Nat) : PUState × Option Notif × Option Nat :=
  match s.waitQueue with
  | [] => ({ s with coreUsed := false }, none, some latency)
  | e :: rest => ({ s with waitQueue := rest }, some ⟨e, latency⟩, none)

/-! ## Observer (Observer.h) and ObserverInterconnect (ObserverInterconnect.h) -/

/-- State of a plain `Observer`: the trigger event, the destination buffer
(`m_valuePtr`, `none` models a null pointer, `some buf` the pointed-to bytes)
and the declared capacity `m_memSize`. -/
structure ObserverState where
  event : Nat
  valuePtr : Option (List Nat)
  memSize : Nat
  deriving DecidableEq, Repr

/-- `Observer::notify`: assert destination pointer non-null and capacity at
least the byte count, copy the first `n` bytes of the source into the
destination, and notify the trigger event at the given latency.  `none`
models an assertion failure. -/
def observerNotify (o : ObserverState) (latency : Nat) (src : List Nat) (n : Nat) :
    Option (ObserverState × Notif) :=
  match o.valuePtr with
  | none => none
  | some buf =>
    if o.memSize ≥ n then
      some ({ o with valuePtr := some (src.take n ++ buf.drop n) }, ⟨o.event, latency⟩)
    else none

/-- State of an `ObserverInterconnect`: the trigger event, the destination
slot (which stores a source-address/length pair rather than raw bytes;
`none` models a null destination pointer), the declared capacity, and the
`m_valueChanged` flag. -/
structure ObserverICState where
  event : Nat
  valuePtr : Option (Option Nat × Nat)
  memSize : Nat
  valueChanged : Bool
  deriving DecidableEq, Repr

/-- `ObserverInterconnect::notify`: assert destination non-null and capacity
at least the byte count; store the `(source, length)` pair into the
destination without copying any raw data, set the value-changed flag, and
notify the synchronisation event at the given latency. -/
def observerICNotify (o : ObserverICState) (latency : Nat) (srcAddr : Option Nat) (n : Nat) :
    Option (ObserverICState × Notif) :=
  match o.valuePtr with
  | none => none
  | some _ =>
    if o.memSize ≥ n then
      some ({ o with valuePtr := some (srcAddr, n), valueChanged := true },
        ⟨o.event, latency⟩)
    else none

/-- `ObserverInterconnect::isValueChanged`: report whether the value changed;
when the flag is set and `reset` is requested, clear it. -/
def isValueChanged (o : ObserverICState) (reset : Bool) : ObserverICState × Bool :=
  if o.valueChanged then
    (if reset then { o with valueChanged := false } else o, true)
  else (o, false)

/-! ## Subject (Subject.cpp) -/

/-- The observer sequence of a `Subject`: insertion-ordered pairs of an
observer reference and the observed output id (`m_observerVec`). -/
abbrev ObserverVec := List (Nat × Nat)

/-- `Subject::registerObserver`: if some entry already holds the same
observer and output id, do nothing; otherwise append the pair. -/
def registerObserver (v : ObserverVec) (obs outId : Nat) : ObserverVec :=
  if v.any (fun it => it.1 == obs && it.2 == outId) then v
  else v ++ [(obs, outId)]

/-- `Subject::eraseObserver`: erase the first entry holding the same observer
and output id, if any. -/
def eraseObserver : ObserverVec → Nat → Nat → ObserverVec
  | [], _, _ => []
  | x :: xs, obs, outId =>
    if x.1 == obs && x.2 == outId then xs else x :: eraseObserver xs obs outId

lemma any_pair_eq (v : ObserverVec) (obs outId : Nat) :
    v.any (fun it => it.1 == obs && it.2 == outId) = true ↔ (obs, outId) ∈ v := by
  simp only [List.any_eq_true, Bool.and_eq_true, beq_iff_eq]
  constructor
  · rintro ⟨⟨a, b⟩, hmem, h1, h2⟩
    cases h1; cases h2; exact hmem
  · intro h
    exact ⟨(obs, outId), h, rfl, rfl⟩

lemma registerObserver_mem (v : ObserverVec) (obs outId : Nat)
    (h : (obs, outId) ∈ v) : registerObserver v obs outId = v := by
  unfold registerObserver
  rw [if_pos ((any_pair_eq v obs outId).mpr h)]

lemma registerObserver_not_mem (v : ObserverVec) (obs outId : Nat)
    (h : (obs, outId) ∉ v) : registerObserver v obs outId = v ++ [(obs, outId)] := by
  unfold registerObserver
  rw [if_neg]
  intro hc
  exact h ((any_pair_eq v obs outId).mp hc)

lemma eraseObserver_not_mem (v : ObserverVec) (obs outId : Nat)
    (h : (obs, outId) ∉ v) : eraseObserver v obs outId = v := by
  induction v with
  | nil => rfl
  | cons x xs ih =>
    unfold eraseObserver
    have hx : ¬(x.1 == obs && x.2 == outId) = true := by
      simp only [Bool.and_eq_true, beq_iff_eq]
      rintro ⟨h1, h2⟩
      exact h (by simp [← h1, ← h2, List.mem_cons])
    rw [if_neg hx, ih (fun hm => h (List.mem_cons_of_mem x hm))]

/-- Claim C6: registering an already-registered pair is a no-op (register is
idempotent and keeps exactly one entry per pair), and erasing an unregistered
pair is a no-op. -/
theorem C6_subject_register_erase (v : ObserverVec) (obs outId : Nat) :
    ((obs, outId) ∈ v → registerObserver v obs outId = v) ∧
    registerObserver (registerObserver v obs outId) obs outId
      = registerObserver v obs outId ∧
    ((obs, outId) ∉ v →
      (registerObserver v obs outId).count (obs, outId) = 1) ∧
    ((obs, outId) ∉ v → eraseObserver v obs outId = v) := by
  refine ⟨registerObserver_mem v obs outId, ?_, ?_, eraseObserver_not_mem v obs outId⟩
  · by_cases h : (obs, outId) ∈ v
    · rw [registerObserver_mem v obs outId h, registerObserver_mem v obs outId h]
    · rw [registerObserver_not_mem v obs outId h,
        registerObserver_mem _ obs outId (by simp)]
  · intro h
    rw [registerObserver_not_mem v obs outId h]
    rw [List.count_append, List.count_eq_zero.mpr h]
    simp [List.count_singleton]

/-- Witness for C6 at a concrete observer vector. -/
theorem C6_subject_register_erase_witness :
    registerObserver [(1, 2), (3, 4)] 1 2 = [(1, 2), (3, 4)] ∧
    ([(1, 2), (3, 4)] : ObserverVec).count (5, 6) = 0 ∧
    eraseObserver [(1, 2), (3, 4)] 5 6 = [(1, 2), (3, 4)] := by
  refine ⟨(C6_subject_register_erase [(1, 2), (3, 4)] 1 2).1 (by decide), by decide, ?_⟩
  exact (C6_subject_register_erase [(1, 2), (3, 4)] 5 6).2.2.2 (by decide)

/-- Claim C1: request_core on a free core sets the flag and notifies at
delta-time zero; on a used core it queues the event and leaves the flag
alone.  release_core with a non-empty waiter FIFO pops the front, notifies
it at the latency and leaves the flag true; with an empty FIFO it clears the
flag and the releasing task itself waits for the latency. -/
theorem C1_core_request_release (s : PUState) (ev latency : Nat) :
    (s.coreUsed = false →
      isCoreUsed s ev = ({ coreUsed := true, waitQueue := s.waitQueue }, some ⟨ev, 0⟩)) ∧
    (s.coreUsed = true →
      isCoreUsed s ev =
        ({ coreUsed := true, waitQueue := s.waitQueue ++ [ev] }, none)) ∧
    (∀ e rest, s.coreUsed = true → s.waitQueue = e :: rest →
      freeUsedCore s latency =
        ({ coreUsed := true, waitQueue := rest }, some ⟨e, latency⟩, none)) ∧
    (s.waitQueue = [] →
      freeUsedCore s latency =
        ({ coreUsed := false, waitQueue := [] }, none, some latency)) := by
  refine ⟨?_, ?_, ?_, ?_⟩
  · intro h
    simp [isCoreUsed, h]
  · intro h
    simp [isCoreUsed, h]
  · intro e rest hc hq
    obtain ⟨cu, wq⟩ := s
    cases hc
    cases hq
    simp [freeUsedCore]
  · intro h
    obtain ⟨cu, wq⟩ := s
    cases hq : wq with
    | nil =>
      cases hq
      cases h
      simp [freeUsedCore]
    | cons e rest => simp [hq] at h

/-- Witness for C1 at concrete unit states. -/
theorem C1_core_request_release_witness :
    isCoreUsed ⟨false, []⟩ 5 = (⟨true, []⟩, some ⟨5, 0⟩) ∧
    isCoreUsed ⟨true, [9]⟩ 5 = (⟨true, [9, 5]⟩, none) ∧
    freeUsedCore ⟨true, [7, 8]⟩ 3 = (⟨true, [8]⟩, some ⟨7, 3⟩, none) ∧
    freeUsedCore ⟨true, []⟩ 3 = (⟨false, []⟩, none, some 3) := by
  refine ⟨(C1_core_request_release ⟨false, []⟩ 5 3).1 rfl,
    (C1_core_request_release ⟨true, [9]⟩ 5 3).2.1 rfl,
    (C1_core_request_release ⟨true, [7, 8]⟩ 5 3).2.2.1 7 [8] rfl rfl, ?_⟩
  exact (C1_core_request_release ⟨true, []⟩ 5 3).2.2.2 rfl

/-- Claim C5: a plain Observer under the precondition (non-null destination,
capacity at least the byte count) copies the first `n` source bytes into the
destination and triggers its event after the latency; an
ObserverInterconnect under the same precondition instead stores the
`(source, length)` pair, raises the value-changed flag, and
`isValueChanged true` then reports true and clears the flag. -/
theorem C5_observer_notify (o : ObserverICState) (p : ObserverState)
    (buf src : List Nat) (srcAddr : Option Nat) (latency n : Nat)
    (hp : p.valuePtr = some buf) (hpcap : p.memSize ≥ n) (hn : n ≤ src.length)
    (ho : o.valuePtr ≠ none) (hocap : o.memSize ≥ n) :
    (∃ newBuf, observerNotify p latency src n
        = some ({ p with valuePtr := some newBuf }, ⟨p.event, latency⟩) ∧
      newBuf.take n = src.take n ∧ newBuf.drop n = buf.drop n) ∧
    (∃ o1, observerICNotify o latency srcAddr n = some (o1, ⟨o.event, latency⟩) ∧
      o1.valuePtr = some (srcAddr, n) ∧
      o1.valueChanged = true ∧
      isValueChanged o1 true = ({ o1 with valueChanged := false }, true)) := by
  constructor
  · refine ⟨src.take n ++ buf.drop n, ?_, ?_, ?_⟩
    · simp [observerNotify, hp, hpcap]
    · rw [List.take_append_of_le_length (by simp [hn]), List.take_take,
        Nat.min_self]
    · rw [List.drop_append_of_le_length (by simp [hn])]
      simp [hn, Nat.sub_eq_zero_of_le]
  · obtain ⟨slot, hslot⟩ := Option.ne_none_iff_exists.mp ho
    refine ⟨{ o with valuePtr := some (srcAddr, n), valueChanged := true }, ?_, rfl, rfl, ?_⟩
    · simp [observerICNotify, ← hslot, hocap]
    · simp [isValueChanged]

/-- Witness for C5 at a concrete observer pair. -/
theorem C5_observer_notify_witness :
    (∃ newBuf, observerNotify ⟨4, some [0, 0, 9], 3⟩ 2 [7, 8] 2
        = some (⟨4, some newBuf, 3⟩, ⟨4, 2⟩) ∧
      newBuf.take 2 = [7, 8].take 2 ∧ newBuf.drop 2 = [0, 0, 9].drop 2) ∧
    (∃ o1, observerICNotify ⟨6, some (none, 0), 16, false⟩ 2 (some 11) 2
        = some (o1, ⟨6, 2⟩) ∧
      o1.valuePtr = some (some 11, 2) ∧
      o1.valueChanged = true ∧
      isValueChanged o1 true = ({ o1 with valueChanged := false }, true)) :=
  C5_observer_notify ⟨6, some (none, 0), 16, false⟩ ⟨4, some [0, 0, 9], 3⟩
    [0, 0, 9] [7, 8] (some 11) 2 2 rfl (by decide) (by decide) (by decide) (by decide)

/-! ## Discrete-event execution of compute vertices on one processing unit

A compute vertex (such as `PostDecVertex::execute`) waits for its inbound
AND-list, calls `isCoreUsed` with its core-free event, waits for that event,
computes (no simulated time passes), calls `freeUsedCore` with its latency,
and publishes.  The kernel below runs such tasks against one unit: `ready`
is the firing of a task's inbound AND-list, `coreFree` the notification of
its core-free event (the moment it acquires the core). -/

inductive KEv where
  | ready (tid : Nat)
  | coreFree (tid : Nat) (handoff : Bool)
  deriving DecidableEq, Repr

/-- Pop a pending notification with minimal timestamp (leftmost on ties). -/
def popEarliest : List (Nat × KEv) → Option ((Nat × KEv) × List (Nat × KEv))
  | [] => none
  | x :: xs =>
    match popEarliest xs with
    | none => some (x, [])
    | some (y, ys) => if x.1 ≤ y.1 then some (x, xs) else some (y, x :: ys)

/-- Kernel state: the processing unit, the pending timed notifications, and
the recorded core acquisitions `(time, task, via-waiter-FIFO)`. -/
structure SimState where
  unit : PUState
  pending : List (Nat × KEv)
  acqs : List (Nat × Nat × Bool)
  deriving Repr

/-- Process one fired notification.  A `ready` task calls `isCoreUsed`; if
that notifies the core-free event (delta-time 0) the grant is scheduled now.
A `coreFree` task acquires the core, computes, and calls `freeUsedCore`,
which may schedule the next waiter's grant after this task's latency. -/
def dispatch (lat : Nat → Nat) (t : Nat) (e : KEv) (s : SimState) : SimState :=
  match e with
  | KEv.ready tid =>
    let r := isCoreUsed s.unit tid
    { unit := r.1,
      pending := s.pending ++ (match r.2 with
        | none => []
        | some nt => [(t + nt.delay, KEv.coreFree nt.event false)]),
      acqs := s.acqs }
  | KEv.coreFree tid h =>
    let r := freeUsedCore s.unit (lat tid)
    { unit := r.1,
      pending := s.pending ++ (match r.2.1 with
        | none => []
        | some nt => [(t + nt.delay, KEv.coreFree nt.event true)]),
      acqs := s.acqs ++ [(t, tid, h)] }

/-- Run the kernel: repeatedly process the earliest pending notification. -/
def runSim (lat : Nat → Nat) : Nat → SimState → SimState
  | 0, s => s
  | fuel + 1, s =>
    match popEarliest s.pending with
    | none => s
    | some (te, rest) => runSim lat fuel (dispatch lat te.1 te.2 { s with pending := rest })

/-- Simulate tasks on a fresh unit from a list of `(ready-time, task)`
inbound activations. -/
def simulate (lat : Nat → Nat) (fuel : Nat) (readys : List (Nat × Nat)) : SimState :=
  runSim lat fuel
    { unit := ⟨false, []⟩,
      pending := readys.map (fun p => (p.1, KEv.ready p.2)),
      acqs := [] }

/-- The property claimed by the spec, as stated: every acquisition happens at
least the previous holder's latency after the previous acquisition. -/
def latencyGapB (lat : Nat → Nat) : List (Nat × Nat × Bool) → Bool
  | x :: y :: rest => decide (x.1 + lat x.2.1 ≤ y.1) && latencyGapB lat (y :: rest)
  | _ => true

/-- The amended property: a hand-off acquisition (one granted by popping the
waiter FIFO) happens exactly the previous holder's latency after the
previous acquisition. -/
def handoffChain (lat : Nat → Nat) : List (Nat × Nat × Bool) → Prop
  | x :: y :: rest => (y.2.2 = true → y.1 = x.1 + lat x.2.1) ∧ handoffChain lat (y :: rest)
  | _ => True

lemma popEarliest_none {l : List (Nat × KEv)} (h : popEarliest l = none) : l = [] := by
  cases l with
  | nil => rfl
  | cons x xs =>
    exfalso
    cases hxs : popEarliest xs with
    | none =>
      simp only [popEarliest, hxs] at h
      exact Option.noConfusion h
    | some p =>
      obtain ⟨y, ys⟩ := p
      simp only [popEarliest, hxs] at h
      split at h <;> exact Option.noConfusion h

lemma popEarliest_perm {l : List (Nat × KEv)} {e : Nat × KEv} {rest : List (Nat × KEv)}
    (h : popEarliest l = some (e, rest)) : l.Perm (e :: rest) := by
  induction l generalizing e rest with
  | nil => simp [popEarliest] at h
  | cons x xs ih =>
    cases hxs : popEarliest xs with
    | none =>
      obtain rfl := popEarliest_none hxs
      simp only [popEarliest, hxs, Option.some.injEq, Prod.mk.injEq] at h
      obtain ⟨rfl, rfl⟩ := h
      exact List.Perm.refl _
    | some p =>
      obtain ⟨y, ys⟩ := p
      simp only [popEarliest, hxs] at h
      split at h
      · simp only [Option.some.injEq, Prod.mk.injEq] at h
        obtain ⟨rfl, rfl⟩ := h
        exact List.Perm.refl _
      · simp only [Option.some.injEq, Prod.mk.injEq] at h
        obtain ⟨rfl, rfl⟩ := h
        exact (List.Perm.cons x (ih hxs)).trans (List.Perm.swap y x ys)

/-- Is a pending notification a core-free (grant) notification? -/
def isCF : KEv → Bool
  | KEv.coreFree _ _ => true
  | _ => false

@[simp] lemma isCF_ready (tid : Nat) : isCF (KEv.ready tid) = false := rfl

@[simp] lemma isCF_coreFree (tid : Nat) (h : Bool) : isCF (KEv.coreFree tid h) = true := rfl

/-- Invariant tying the unit flag, the in-flight grant and the acquisition
record together: the core-used flag is set iff exactly one grant is in
flight; an in-flight hand-off grant is timed exactly one latency after the
last recorded acquisition; and the acquisition record satisfies the amended
chain property. -/
def SimInv (lat : Nat → Nat) (s : SimState) : Prop :=
  s.pending.countP (fun te => isCF te.2) = (if s.unit.coreUsed then 1 else 0) ∧
  (∀ t w, (t, KEv.coreFree w true) ∈ s.pending →
    ∃ a, s.acqs.getLast? = some a ∧ t = a.1 + lat a.2.1) ∧
  handoffChain lat s.acqs

lemma handoffChain_append (lat : Nat → Nat) (l : List (Nat × Nat × Bool))
    (z : Nat × Nat × Bool) (h : handoffChain lat l)
    (hz : z.2.2 = true → ∃ a, l.getLast? = some a ∧ z.1 = a.1 + lat a.2.1) :
    handoffChain lat (l ++ [z]) := by
  induction l with
  | nil => simp [handoffChain]
  | cons x xs ih =>
    cases xs with
    | nil =>
      refine ⟨?_, trivial⟩
      intro hzt
      obtain ⟨a, ha, hrel⟩ := hz hzt
      simp only [List.getLast?_singleton, Option.some.injEq] at ha
      rw [hrel, ha]
    | cons y ys =>
      refine ⟨h.1, ih h.2 ?_⟩
      intro hzt
      obtain ⟨a, ha, hrel⟩ := hz hzt
      rw [List.getLast?_cons_cons] at ha
      exact ⟨a, ha, hrel⟩

lemma handoffChain_split (lat : Nat → Nat) :
    ∀ (pre post : List (Nat × Nat × Bool)) (x y : Nat × Nat × Bool),
      handoffChain lat (pre ++ x :: y :: post) → y.2.2 = true →
      y.1 = x.1 + lat x.2.1 := by
  intro pre
  induction pre with
  | nil =>
    intro post x y h hy
    exact h.1 hy
  | cons p ps ih =>
    intro post x y h hy
    cases hq : ps ++ x :: y :: post with
    | nil => exact absurd hq (by simp)
    | cons b r =>
      rw [List.cons_append, hq] at h
      exact ih post x y (by rw [hq]; exact h.2) hy

lemma dispatch_ready (lat : Nat → Nat) (t tid : Nat) (s : SimState) :
    dispatch lat t (KEv.ready tid) s =
      if s.unit.coreUsed then
        { s with unit := { s.unit with waitQueue := s.unit.waitQueue ++ [tid] } }
      else
        { unit := { s.unit with coreUsed := true },
          pending := s.pending ++ [(t, KEv.coreFree tid false)],
          acqs := s.acqs } := by
  by_cases h : s.unit.coreUsed <;> simp [dispatch, isCoreUsed, h]

lemma dispatch_coreFree_nil (lat : Nat → Nat) (t tid : Nat) (h : Bool) (s : SimState)
    (hq : s.unit.waitQueue = []) :
    dispatch lat t (KEv.coreFree tid h) s =
      { unit := { s.unit with coreUsed := false }, pending := s.pending,
        acqs := s.acqs ++ [(t, tid, h)] } := by
  simp [dispatch, freeUsedCore, hq]

lemma dispatch_coreFree_cons (lat : Nat → Nat) (t tid : Nat) (h : Bool) (s : SimState)
    (w : Nat) (ws : List Nat) (hq : s.unit.waitQueue = w :: ws) :
    dispatch lat t (KEv.coreFree tid h) s =
      { unit := { s.unit with waitQueue := ws },
        pending := s.pending ++ [(t + lat tid, KEv.coreFree w true)],
        acqs := s.acqs ++ [(t, tid, h)] } := by
  simp [dispatch, freeUsedCore, hq]

lemma dispatch_inv (lat : Nat → Nat) (t : Nat) (e : KEv) (s : SimState)
    (rest : List (Nat × KEv)) (hpop : popEarliest s.pending = some ((t, e), rest))
    (hinv : SimInv lat s) : SimInv lat (dispatch lat t e { s with pending := rest }) := by
  obtain ⟨hcount, htime, hchain⟩ := hinv
  have hperm := popEarliest_perm hpop
  have hmem : ∀ a, a ∈ rest → a ∈ s.pending := by
    intro a ha
    exact hperm.mem_iff.mpr (List.mem_cons_of_mem _ ha)
  cases e with
  | ready tid =>
    have hc2 : s.pending.countP (fun te => isCF te.2)
        = rest.countP (fun te => isCF te.2) := by
      rw [hperm.countP_eq, List.countP_cons]
      simp
    rw [dispatch_ready]
    by_cases hcu : s.unit.coreUsed
    · rw [if_pos hcu]
      refine ⟨?_, ?_, hchain⟩
      · show rest.countP (fun te => isCF te.2) = _
        rw [← hc2, hcount]
      · intro t1 w h1
        exact htime t1 w (hmem _ h1)
    · rw [if_neg hcu]
      have hzero : s.pending.countP (fun te => isCF te.2) = 0 := by
        simp only [Bool.not_eq_true] at hcu
        simp [hcount, hcu]
      have hnone : ∀ a ∈ s.pending, ¬(isCF a.2 = true) :=
        List.countP_eq_zero.mp hzero
      refine ⟨?_, ?_, hchain⟩
      · show (rest ++ [(t, KEv.coreFree tid false)]).countP (fun te => isCF te.2) = _
        rw [List.countP_append]
        rw [← hc2, hzero]
        simp [List.countP_cons]
      · intro t1 w h1
        rcases List.mem_append.mp h1 with h2 | h2
        · exact absurd rfl (hnone _ (hmem _ h2))
        · simp only [List.mem_singleton, Prod.mk.injEq, KEv.coreFree.injEq] at h2
          exact absurd h2.2.2 (by simp)
  | coreFree tid h =>
    have hc2 : s.pending.countP (fun te => isCF te.2)
        = rest.countP (fun te => isCF te.2) + 1 := by
      rw [hperm.countP_eq, List.countP_cons]
      simp
    have hcu : s.unit.coreUsed = true := by
      cases hcu2 : s.unit.coreUsed with
      | true => rfl
      | false =>
        have h0 : s.pending.countP (fun te => isCF te.2) = 0 := by
          rw [hcount, hcu2]
          decide
        omega
    have hrest0 : rest.countP (fun te => isCF te.2) = 0 := by
      have h1 : s.pending.countP (fun te => isCF te.2) = 1 := by
        rw [hcount, hcu]
        decide
      omega
    have hrestnone : ∀ a ∈ rest, ¬(isCF a.2 = true) := List.countP_eq_zero.mp hrest0
    have hzmem : (t, KEv.coreFree tid h) ∈ s.pending :=
      hperm.mem_iff.mpr (List.mem_cons_self _ _)
    have happ : handoffChain lat (s.acqs ++ [(t, tid, h)]) := by
      refine handoffChain_append lat s.acqs (t, tid, h) hchain ?_
      intro hh
      simp only at hh
      subst hh
      obtain ⟨a, ha, hrel⟩ := htime t tid hzmem
      exact ⟨a, ha, hrel⟩
    cases hq : s.unit.waitQueue with
    | nil =>
      rw [dispatch_coreFree_nil lat t tid h { unit := s.unit, pending := rest, acqs := s.acqs } hq]
      refine ⟨?_, ?_, happ⟩
      · show rest.countP (fun te => isCF te.2) = _
        simpa using hrest0
      · intro t1 w h1
        exact absurd rfl (hrestnone _ h1)
    | cons w ws =>
      rw [dispatch_coreFree_cons lat t tid h { unit := s.unit, pending := rest, acqs := s.acqs } w ws hq]
      refine ⟨?_, ?_, happ⟩
      · show (rest ++ [(t + lat tid, KEv.coreFree w true)]).countP
            (fun te => isCF te.2) = _
        rw [List.countP_append, hrest0]
        simp [List.countP_cons, hcu]
      · intro t1 w1 h1
        rcases List.mem_append.mp h1 with h2 | h2
        · exact absurd rfl (hrestnone _ h2)
        · simp only [List.mem_singleton, Prod.mk.injEq, KEv.coreFree.injEq] at h2
          refine ⟨(t, tid, h), ?_, ?_⟩
          · simp
          · rw [h2.1]


lemma runSim_inv (lat : Nat → Nat) (fuel : Nat) (s : SimState) (h : SimInv lat s) :
    SimInv lat (runSim lat fuel s) := by
  induction fuel generalizing s with
  | zero => exact h
  | succ n ih =>
    rw [runSim]
    cases hp : popEarliest s.pending with
    | none => exact h
    | some p =>
      obtain ⟨⟨t, e⟩, rest⟩ := p
      exact ih _ (dispatch_inv lat t e s rest hp h)

lemma simulate_inv (lat : Nat → Nat) (fuel : Nat) (readys : List (Nat × Nat)) :
    SimInv lat (simulate lat fuel readys) := by
  apply runSim_inv
  refine ⟨?_, ?_, trivial⟩
  · simp only [if_neg (by simp : ¬(false = true))]
    apply List.countP_eq_zero.mpr
    intro a ha
    obtain ⟨p, _, rfl⟩ := List.mem_map.mp ha
    simp [isCF]
  · intro t w hmem
    obtain ⟨p, _, hp⟩ := List.mem_map.mp hmem
    exact absurd (congrArg Prod.snd hp) (by simp)

/-- Counterexample to claim C2 as stated: on a unit whose every task has
latency 10, a task ready at time 0 acquires at 0, releases at 0 with an
empty FIFO (clearing the flag), and a second task ready at time 3 acquires
at 3 — only 3 time units after the previous acquisition. -/
theorem C2_counterexample :
    ¬ ∀ (lat : Nat → Nat) (fuel : Nat) (readys : List (Nat × Nat)),
        latencyGapB lat (simulate lat fuel readys).acqs = true := by
  intro hall
  have h := hall (fun _ => 10) 6 [(0, 0), (3, 1)]
  revert h
  decide

/-- Claim C2, amended: between two successive core acquisitions on a unit
where the later holder was granted the core from the waiter FIFO, exactly
(hence at least) the previous holder's latency of simulated time elapses;
when the FIFO is empty at release the core is freed immediately and a later
requester may acquire sooner. -/
theorem C2_successive_acquisitions (lat : Nat → Nat) (fuel : Nat)
    (readys : List (Nat × Nat)) (pre post : List (Nat × Nat × Bool))
    (x y : Nat × Nat × Bool)
    (hsplit : (simulate lat fuel readys).acqs = pre ++ x :: y :: post)
    (hy : y.2.2 = true) :
    y.1 = x.1 + lat x.2.1 := by
  have hinv := simulate_inv lat fuel readys
  exact handoffChain_split lat pre post x y (hsplit ▸ hinv.2.2) hy

/-- Witness for the amended C2: two tasks ready at time 0 on one unit with
latency 10; the second is granted from the FIFO and acquires at exactly
time 10. -/
theorem C2_successive_acquisitions_witness :
    (simulate (fun _ => 10) 6 [(0, 0), (0, 1)]).acqs
      = [(0, 0, false), (10, 1, true)] ∧ (10 : Nat) = 0 + 10 := by
  refine ⟨by decide, ?_⟩
  exact C2_successive_acquisitions (fun _ => 10) 6 [(0, 0), (0, 1)] [] []
    (0, 0, false) (10, 1, true) (by decide) rfl

/-! ## If-vertex (IfVertex.cpp)

The if-vertex stores no values: it holds `(data pointer, length)` descriptors
for each of its incoming edges (`m_ifBeginDataVec`) and outgoing edges
(`m_ifEndDataVec`).  `conditionCheck` runs when the inbound AND-list (all
incoming data events plus the condition event) fires. -/

/-- A `dataVec_t` entry: pointer to the start of a value and its length. -/
structure Desc where
  ptr : Nat
  len : Nat
  deriving DecidableEq, Repr

/-- A value notification delivered to an observer: the observer reference,
the descriptor passed to it, and the delta-time delay. -/
structure DataNotif where
  obs : Nat
  data : Desc
  delay : Nat
  deriving DecidableEq, Repr

/-- `IfVertex::ThenPath::notifyObservers` and
`IfVertex::ElsePath::notifyObservers`: notify, at delta-time zero, every
registered observer whose observed value id matches, passing the descriptor
stored at that index of `m_ifBeginDataVec`. -/
def pathNotifyObservers (observerVec : List (Nat × Nat)) (ifBeginDataVec : List Desc)
    (outValueId : Nat) : List DataNotif :=
  observerVec.filterMap (fun obs =>
    if obs.2 = outValueId then
      some ⟨obs.1, ifBeginDataVec.getD outValueId ⟨0, 0⟩, 0⟩
    else none)

/-- `IfVertex::notifyObservers`: notify, at delta-time zero, every registered
successor observer whose observed value id matches, passing the descriptor
stored at that index of `m_ifEndDataVec`. -/
def ifNotifyObservers (observerVec : List (Nat × Nat)) (ifEndDataVec : List Desc)
    (outValueId : Nat) : List DataNotif :=
  observerVec.filterMap (fun obs =>
    if obs.2 = outValueId then
      some ⟨obs.1, ifEndDataVec.getD outValueId ⟨0, 0⟩, 0⟩
    else none)

/-- State of an `IfVertex`: the stored condition, the value-id sets for the
two paths (`m_thenNodes` / `m_elseNodes`), the observer sequences of the two
path Subjects, the observer sequence of the if-vertex itself (its external
successors), and the inbound and outbound descriptor vectors. -/
structure IfVertexState where
  condition : Bool
  thenNodes : List Nat
  elseNodes : List Nat
  thenPathObs : List (Nat × Nat)
  elsePathObs : List (Nat × Nat)
  ifObserverVec : List (Nat × Nat)
  ifBeginDataVec : List Desc
  ifEndDataVec : List Desc
  deriving DecidableEq, Repr

/-- One activation of `IfVertex::conditionCheck` after its inbound AND-list
fires: copy the inbound descriptor vector to the outbound one, then notify
the chosen path Subject for each registered value id.  Returns the new state
and the notifications issued on the then path and on the else path. -/
def conditionCheck (s : IfVertexState) : IfVertexState × List DataNotif × List DataNotif :=
  let s1 := { s with ifEndDataVec := s.ifBeginDataVec }
  if s1.condition then
    (s1, (s1.thenNodes.map (pathNotifyObservers s1.thenPathObs s1.ifBeginDataVec)).flatten, [])
  else
    (s1, [], (s1.elseNodes.map (pathNotifyObservers s1.elsePathObs s1.ifBeginDataVec)).flatten)

/-- The effect of the chosen path's write-back observers
(`registerThenOutDependency` installs an `ObserverInterconnect` whose
destination is `m_ifEndDataVec[inEdgeId]`): each write-back overwrites the
outbound slot at its inbound-edge index with the sub-vertex's result
descriptor. -/
def applyWriteBacks (wbs : List (Nat × Desc)) (vec : List Desc) : List Desc :=
  wbs.foldl (fun v wb => v.set wb.1 wb.2) vec

/-- `IfVertex::ifEndFromThenProcess` / `ifEndFromElseProcess` after the join
AND-list fires: publish every outbound slot index to the external
successors. -/
def ifEndPublish (s : IfVertexState) : List DataNotif :=
  ((List.range s.ifBeginDataVec.length).map
    (ifNotifyObservers s.ifObserverVec s.ifEndDataVec)).flatten

/-- A whole activation with the chosen path's write-back results given as
`(inbound-edge index, result descriptor)` records: dispatch, apply the
write-backs, publish. -/
def ifActivation (s : IfVertexState) (wbs : List (Nat × Desc)) :
    IfVertexState × List DataNotif :=
  let s1 := (conditionCheck s).1
  let s2 := { s1 with ifEndDataVec := applyWriteBacks wbs s1.ifEndDataVec }
  (s2, ifEndPublish s2)

lemma mem_pathNotifyObservers (v : List (Nat × Nat)) (vec : List Desc) (id : Nat)
    (nt : DataNotif) :
    nt ∈ pathNotifyObservers v vec id ↔
      ∃ o, (o, id) ∈ v ∧ nt = ⟨o, vec.getD id ⟨0, 0⟩, 0⟩ := by
  simp only [pathNotifyObservers, List.mem_filterMap]
  constructor
  · rintro ⟨⟨a, b⟩, hmem, hif⟩
    by_cases hb : b = id
    · subst hb
      rw [if_pos rfl] at hif
      exact ⟨a, hmem, (Option.some.injEq _ _ ▸ hif).symm⟩
    · rw [if_neg hb] at hif
      exact absurd hif (by simp)
  · rintro ⟨o, hmem, rfl⟩
    exact ⟨(o, id), hmem, by simp⟩

lemma conditionCheck_true (s : IfVertexState) (h : s.condition = true) :
    conditionCheck s = ({ s with ifEndDataVec := s.ifBeginDataVec },
      (s.thenNodes.map (pathNotifyObservers s.thenPathObs s.ifBeginDataVec)).flatten, []) := by
  simp [conditionCheck, h]

lemma conditionCheck_false (s : IfVertexState) (h : s.condition = false) :
    conditionCheck s = ({ s with ifEndDataVec := s.ifBeginDataVec },
      [], (s.elseNodes.map (pathNotifyObservers s.elsePathObs s.ifBeginDataVec)).flatten) := by
  simp [conditionCheck, h]

/-- Claim C3: on an activation of an if-vertex, if the stored condition is
true then exactly the value ids in `thenNodes` are notified through the
then-path Subject (a notification is issued precisely to the observers
registered there under an id of `thenNodes`, at delta-time zero with the
inbound descriptor of that id) and no else-path notification occurs; and
symmetrically when the condition is false. -/
theorem C3_if_condition_dispatch (s : IfVertexState) :
    (s.condition = true →
      (conditionCheck s).2.2 = [] ∧
      ∀ nt, nt ∈ (conditionCheck s).2.1 ↔
        ∃ id o, id ∈ s.thenNodes ∧ (o, id) ∈ s.thenPathObs ∧
          nt = ⟨o, s.ifBeginDataVec.getD id ⟨0, 0⟩, 0⟩) ∧
    (s.condition = false →
      (conditionCheck s).2.1 = [] ∧
      ∀ nt, nt ∈ (conditionCheck s).2.2 ↔
        ∃ id o, id ∈ s.elseNodes ∧ (o, id) ∈ s.elsePathObs ∧
          nt = ⟨o, s.ifBeginDataVec.getD id ⟨0, 0⟩, 0⟩) := by
  constructor
  · intro hc
    rw [conditionCheck_true s hc]
    refine ⟨rfl, ?_⟩
    intro nt
    simp only [List.mem_flatten, List.mem_map]
    constructor
    · rintro ⟨l, ⟨id, hid, rfl⟩, hnt⟩
      obtain ⟨o, ho, rfl⟩ := (mem_pathNotifyObservers _ _ _ _).mp hnt
      exact ⟨id, o, hid, ho, rfl⟩
    · rintro ⟨id, o, hid, ho, rfl⟩
      exact ⟨pathNotifyObservers s.thenPathObs s.ifBeginDataVec id, ⟨id, hid, rfl⟩,
        (mem_pathNotifyObservers _ _ _ _).mpr ⟨o, ho, rfl⟩⟩
  · intro hc
    rw [conditionCheck_false s hc]
    refine ⟨rfl, ?_⟩
    intro nt
    simp only [List.mem_flatten, List.mem_map]
    constructor
    · rintro ⟨l, ⟨id, hid, rfl⟩, hnt⟩
      obtain ⟨o, ho, rfl⟩ := (mem_pathNotifyObservers _ _ _ _).mp hnt
      exact ⟨id, o, hid, ho, rfl⟩
    · rintro ⟨id, o, hid, ho, rfl⟩
      exact ⟨pathNotifyObservers s.elsePathObs s.ifBeginDataVec id, ⟨id, hid, rfl⟩,
        (mem_pathNotifyObservers _ _ _ _).mpr ⟨o, ho, rfl⟩⟩

/-- Witness for C3 on a concrete if-vertex state in both condition polarities. -/
theorem C3_if_condition_dispatch_witness :
    ((conditionCheck ⟨true, [0], [1], [(2, 0)], [(3, 1)], [], [⟨5, 4⟩, ⟨6, 4⟩], []⟩).2.2 = []
      ∧ (⟨2, ⟨5, 4⟩, 0⟩ : DataNotif) ∈
        (conditionCheck ⟨true, [0], [1], [(2, 0)], [(3, 1)], [], [⟨5, 4⟩, ⟨6, 4⟩], []⟩).2.1) ∧
    ((conditionCheck ⟨false, [0], [1], [(2, 0)], [(3, 1)], [], [⟨5, 4⟩, ⟨6, 4⟩], []⟩).2.1 = []
      ∧ (⟨3, ⟨6, 4⟩, 0⟩ : DataNotif) ∈
        (conditionCheck ⟨false, [0], [1], [(2, 0)], [(3, 1)], [], [⟨5, 4⟩, ⟨6, 4⟩], []⟩).2.2) := by
  constructor
  · obtain ⟨h1, h2⟩ :=
      (C3_if_condition_dispatch ⟨true, [0], [1], [(2, 0)], [(3, 1)], [], [⟨5, 4⟩, ⟨6, 4⟩], []⟩).1
        rfl
    exact ⟨h1, (h2 _).mpr ⟨0, 2, by decide, by decide, rfl⟩⟩
  · obtain ⟨h1, h2⟩ :=
      (C3_if_condition_dispatch ⟨false, [0], [1], [(2, 0)], [(3, 1)], [], [⟨5, 4⟩, ⟨6, 4⟩], []⟩).2
        rfl
    exact ⟨h1, (h2 _).mpr ⟨1, 3, by decide, by decide, rfl⟩⟩

lemma mem_ifNotifyObservers (v : List (Nat × Nat)) (vec : List Desc) (id : Nat)
    (nt : DataNotif) :
    nt ∈ ifNotifyObservers v vec id ↔
      ∃ o, (o, id) ∈ v ∧ nt = ⟨o, vec.getD id ⟨0, 0⟩, 0⟩ := by
  simp only [ifNotifyObservers, List.mem_filterMap]
  constructor
  · rintro ⟨⟨a, b⟩, hmem, hif⟩
    by_cases hb : b = id
    · subst hb
      rw [if_pos rfl] at hif
      exact ⟨a, hmem, (Option.some.injEq _ _ ▸ hif).symm⟩
    · rw [if_neg hb] at hif
      exact absurd hif (by simp)
  · rintro ⟨o, hmem, rfl⟩
    exact ⟨(o, id), hmem, by simp⟩

lemma countP_ifNotifyObservers (v : List (Nat × Nat)) (vec : List Desc) (j o : Nat) :
    (ifNotifyObservers v vec j).countP (fun nt => nt.obs == o)
      = v.countP (fun p => p.1 == o && p.2 == j) := by
  induction v with
  | nil => rfl
  | cons x xs ih =>
    by_cases hx : x.2 = j
    · simp only [ifNotifyObservers, List.filterMap_cons] at ih ⊢
      rw [if_pos hx, List.countP_cons, List.countP_cons, ih]
      simp [hx]
    · simp only [ifNotifyObservers, List.filterMap_cons] at ih ⊢
      rw [if_neg hx, List.countP_cons, ih]
      simp [hx]

lemma countP_pair_unique (l : List (Nat × Nat)) (o i : Nat)
    (huniq : l.countP (fun p => p.1 == o) = 1) (hmem : (o, i) ∈ l) (j : Nat) :
    l.countP (fun p => p.1 == o && p.2 == j) = if i = j then 1 else 0 := by
  induction l with
  | nil => simp at hmem
  | cons x xs ih =>
    rw [List.countP_cons] at huniq ⊢
    by_cases hx : x.1 = o
    · have h0 : xs.countP (fun p => p.1 == o) = 0 := by
        simp only [hx, beq_self_eq_true, if_true] at huniq
        omega
      have hnone := List.countP_eq_zero.mp h0
      have hxi : x = (o, i) := by
        rcases List.mem_cons.mp hmem with h1 | h1
        · exact h1.symm
        · exact absurd (by simp : (((o, i).1 == o) = true)) (hnone _ h1)
      have h0b : xs.countP (fun p => p.1 == o && p.2 == j) = 0 := by
        apply List.countP_eq_zero.mpr
        intro a ha
        simp only [Bool.and_eq_true, beq_iff_eq, not_and]
        intro hao
        exact absurd (by simp [hao] : ((a.1 == o) = true)) (hnone _ ha)
      rw [h0b, hxi]
      by_cases hij : i = j <;> simp [hij]
    · have hxf : (x.1 == o && x.2 == j) = false := by
        simp [hx]
      have huniq2 : xs.countP (fun p => p.1 == o) = 1 := by
        simp only [beq_iff_eq, if_neg hx] at huniq
        omega
      have hmem2 : (o, i) ∈ xs := by
        rcases List.mem_cons.mp hmem with h1 | h1
        · exact absurd (congrArg Prod.fst h1.symm) hx
        · exact h1
      have hz : (if (x.1 == o && x.2 == j) = true then 1 else 0) = 0 := by
        rw [hxf]
        decide
      rw [hz, Nat.add_zero]
      exact ih huniq2 hmem2

lemma applyWriteBacks_cons (wb : Nat × Desc) (rest : List (Nat × Desc)) (vec : List Desc) :
    applyWriteBacks (wb :: rest) vec = applyWriteBacks rest (vec.set wb.1 wb.2) := rfl

lemma applyWriteBacks_not_target (wbs : List (Nat × Desc)) (vec : List Desc) (i : Nat)
    (h : ∀ wb ∈ wbs, wb.1 ≠ i) :
    (applyWriteBacks wbs vec).getD i ⟨0, 0⟩ = vec.getD i ⟨0, 0⟩ := by
  induction wbs generalizing vec with
  | nil => rfl
  | cons wb rest ih =>
    rw [applyWriteBacks_cons, ih _ (fun w hw => h w (List.mem_cons_of_mem _ hw))]
    rw [List.getD_eq_getElem?_getD, List.getD_eq_getElem?_getD,
      List.getElem?_set_ne (h wb (List.mem_cons_self _ _))]

lemma sum_indicator_range (N i : Nat) :
    ((List.range N).map (fun j => if i = j then 1 else 0)).sum
      = if i < N then 1 else 0 := by
  induction N with
  | zero => simp
  | succ n ihn =>
    rw [List.range_succ, List.map_append, List.sum_append, ihn]
    by_cases h1 : i < n
    · have h2 : i ≠ n := Nat.ne_of_lt h1
      simp [h1, h2, Nat.lt_succ_of_lt h1]
    · by_cases h2 : i = n
      · simp [h1, h2, Nat.lt_succ_self]
      · have h3 : ¬i < n + 1 := by omega
        simp [h1, h2, h3]

lemma conditionCheck_fst (s : IfVertexState) :
    (conditionCheck s).1 = { s with ifEndDataVec := s.ifBeginDataVec } := by
  cases hc : s.condition with
  | true => rw [conditionCheck_true s hc, hc]
  | false => rw [conditionCheck_false s hc, hc]

lemma ifActivation_eq (s : IfVertexState) (wbs : List (Nat × Desc)) :
    ifActivation s wbs =
      ({ s with ifEndDataVec := applyWriteBacks wbs s.ifBeginDataVec },
        ifEndPublish { s with ifEndDataVec := applyWriteBacks wbs s.ifBeginDataVec }) := by
  unfold ifActivation
  rw [conditionCheck_fst]

lemma ifActivation_state (s : IfVertexState) (wbs : List (Nat × Desc)) :
    (ifActivation s wbs).1 =
      { s with ifEndDataVec := applyWriteBacks wbs s.ifBeginDataVec } := by
  rw [ifActivation_eq]

/-- Claim C4: on an if-vertex activation the inbound descriptor vector is
copied to the outbound vector; after the chosen path's join AND-list fires,
every outbound slot is published exactly once per registered external
successor at delta-time zero; and the published descriptor at an index no
write-back targeted equals the inbound descriptor at that index. -/
theorem C4_if_outbound_publish (s : IfVertexState) (wbs : List (Nat × Desc))
    (o i : Nat) (hi : i < s.ifBeginDataVec.length)
    (huniq : s.ifObserverVec.countP (fun p => p.1 == o) = 1)
    (hreg : (o, i) ∈ s.ifObserverVec) :
    (conditionCheck s).1.ifEndDataVec = s.ifBeginDataVec ∧
    (ifActivation s wbs).2.countP (fun nt => nt.obs == o) = 1 ∧
    (∀ nt, nt ∈ (ifActivation s wbs).2 → nt.delay = 0) ∧
    (⟨o, (ifActivation s wbs).1.ifEndDataVec.getD i ⟨0, 0⟩, 0⟩ : DataNotif)
      ∈ (ifActivation s wbs).2 ∧
    ((∀ wb ∈ wbs, wb.1 ≠ i) →
      (ifActivation s wbs).1.ifEndDataVec.getD i ⟨0, 0⟩
        = s.ifBeginDataVec.getD i ⟨0, 0⟩) := by
  have hcopy : (conditionCheck s).1.ifEndDataVec = s.ifBeginDataVec := by
    rw [conditionCheck_fst]
  have hstate := ifActivation_state s wbs
  have hpub : (ifActivation s wbs).2 = ifEndPublish (ifActivation s wbs).1 := by
    rw [ifActivation_eq]
  have hbegin : (ifActivation s wbs).1.ifBeginDataVec = s.ifBeginDataVec := by
    rw [hstate]
  refine ⟨hcopy, ?_, ?_, ?_, ?_⟩
  · rw [hpub]
    unfold ifEndPublish
    rw [List.countP_flatten, List.map_map]
    have heach : ∀ j, ((ifNotifyObservers (ifActivation s wbs).1.ifObserverVec
        (ifActivation s wbs).1.ifEndDataVec j).countP (fun nt => nt.obs == o))
        = if i = j then 1 else 0 := by
      intro j
      rw [countP_ifNotifyObservers]
      have hobs : (ifActivation s wbs).1.ifObserverVec = s.ifObserverVec := by
        rw [hstate]
      rw [hobs]
      exact countP_pair_unique s.ifObserverVec o i huniq hreg j
    calc ((List.range (ifActivation s wbs).1.ifBeginDataVec.length).map
            ((fun l => l.countP fun nt => nt.obs == o) ∘
              ifNotifyObservers (ifActivation s wbs).1.ifObserverVec
                (ifActivation s wbs).1.ifEndDataVec)).sum
        = ((List.range (ifActivation s wbs).1.ifBeginDataVec.length).map
            (fun j => if i = j then 1 else 0)).sum := by
          apply congrArg
          apply List.map_congr_left
          intro j _
          exact heach j
      _ = 1 := by
          rw [sum_indicator_range, hbegin, if_pos hi]
  · intro nt hnt
    rw [hpub] at hnt
    unfold ifEndPublish at hnt
    obtain ⟨l, hl, hntl⟩ := List.mem_flatten.mp hnt
    obtain ⟨j, _, rfl⟩ := List.mem_map.mp hl
    obtain ⟨o1, _, rfl⟩ := (mem_ifNotifyObservers _ _ _ _).mp hntl
    rfl
  · rw [hpub]
    unfold ifEndPublish
    apply List.mem_flatten.mpr
    refine ⟨ifNotifyObservers (ifActivation s wbs).1.ifObserverVec
      (ifActivation s wbs).1.ifEndDataVec i, ?_, ?_⟩
    · apply List.mem_map_of_mem
      rw [hbegin]
      exact List.mem_range.mpr hi
    · apply (mem_ifNotifyObservers _ _ _ _).mpr
      refine ⟨o, ?_, rfl⟩
      rw [hstate]
      exact hreg
  · intro hwb
    rw [hstate]
    exact applyWriteBacks_not_target wbs s.ifBeginDataVec i hwb

/-- Witness for C4 on a concrete if-vertex with two inbound edges, a
write-back on slot 1, and one external successor observing slot 0. -/
theorem C4_if_outbound_publish_witness :
    (conditionCheck ⟨true, [], [], [], [], [(8, 0)], [⟨5, 4⟩, ⟨6, 4⟩], []⟩).1.ifEndDataVec
      = [⟨5, 4⟩, ⟨6, 4⟩] ∧
    (ifActivation ⟨true, [], [], [], [], [(8, 0)], [⟨5, 4⟩, ⟨6, 4⟩], []⟩
      [(1, ⟨9, 2⟩)]).2.countP (fun nt => nt.obs == 8) = 1 ∧
    (ifActivation ⟨true, [], [], [], [], [(8, 0)], [⟨5, 4⟩, ⟨6, 4⟩], []⟩
      [(1, ⟨9, 2⟩)]).1.ifEndDataVec.getD 0 ⟨0, 0⟩ = ⟨5, 4⟩ := by
  have h := C4_if_outbound_publish ⟨true, [], [], [], [], [(8, 0)], [⟨5, 4⟩, ⟨6, 4⟩], []⟩
    [(1, ⟨9, 2⟩)] 8 0 (by decide) (by decide) (by decide)
  refine ⟨h.1, h.2.1, ?_⟩
  rw [h.2.2.2.2 (by decide)]
  decide

/-! ## Observer manager (ObserverManager.h)

`std::map<unsigned int, T>` is modelled as an association list with unique
keys.  The claims below never iterate the map, so only membership, lookup,
size and erase are relevant; `emplace` inserts only when the key is absent
and reports whether it inserted. -/

/-- `std::map::find`-style lookup by key. -/
def mapAt {A : Type} (k : Nat) : List (Nat × A) → Option A
  | [] => none
  | x :: xs => if x.1 = k then some x.2 else mapAt k xs

/-- `std::map::emplace`: if the key is present the map is unchanged and the
insertion flag is false; otherwise the pair is added. -/
def mapEmplace {A : Type} (k : Nat) (v : A) (l : List (Nat × A)) :
    List (Nat × A) × Bool :=
  match mapAt k l with
  | some _ => (l, false)
  | none => (l ++ [(k, v)], true)

/-- `std::map::erase` by key. -/
def mapErase {A : Type} (k : Nat) : List (Nat × A) → List (Nat × A)
  | [] => []
  | x :: xs => if x.1 = k then xs else x :: mapErase k xs

/-- State of an `ObserverManager`: the observer pool keyed by id, and the
running id counter `m_obsId`. -/
structure ObsMgr (A : Type) where
  observers : List (Nat × A)
  obsId : Nat
  deriving DecidableEq, Repr

namespace ObserverManager

/-- `ObserverManager::addObserver`: emplace the new observer under the
current `m_obsId` and return that id, post-incrementing the counter. -/
def addObserver {A : Type} (m : ObsMgr A) (o : A) : ObsMgr A × Nat :=
  (⟨(mapEmplace m.obsId o m.observers).1, m.obsId + 1⟩, m.obsId)

/-- `ObserverManager::eraseObserver`: erase the map entry with the id. -/
def eraseObserver {A : Type} (m : ObsMgr A) (id : Nat) : ObsMgr A :=
  ⟨mapErase id m.observers, m.obsId⟩

/-- `ObserverManager::clearObservers`: clear the pool and reset the id. -/
def clearObservers {A : Type} (_ : ObsMgr A) : ObsMgr A :=
  ⟨[], 0⟩

/-- `ObserverManager::getObserver`: if the map size exceeds the id, return
`m_observers.at(id)` — which throws (`none` in the outer layer) when the key
is absent; otherwise return a null pointer (`some none`). -/
def getObserver {A : Type} (m : ObsMgr A) (id : Nat) : Option (Option A) :=
  if m.observers.length > id then
    match mapAt id m.observers with
    | some o => some (some o)
    | none => none
  else
    some none

end ObserverManager

/-- Claim C7 evaluated at the failing input: three observers are added under
the dense ids 0, 1, 2; after erasing id 0, observer 2 is still stored under
its id, yet `getObserver 2` returns a null pointer (the size guard `size >
id` fails), and `getObserver 0` throws out-of-range instead of returning
null — contradicting the claim that `get(id)` returns the stored observer
for a live id and null for any other id. -/
theorem C7_observer_manager_get_bug :
    (ObserverManager.addObserver (⟨[], 0⟩ : ObsMgr Nat) 100).2 = 0 ∧
    (ObserverManager.addObserver
      (ObserverManager.addObserver (⟨[], 0⟩ : ObsMgr Nat) 100).1 101).2 = 1 ∧
    (ObserverManager.addObserver (ObserverManager.addObserver
      (ObserverManager.addObserver (⟨[], 0⟩ : ObsMgr Nat) 100).1 101).1 102).2 = 2 ∧
    mapAt 2 (ObserverManager.eraseObserver
      (ObserverManager.addObserver (ObserverManager.addObserver
        (ObserverManager.addObserver (⟨[], 0⟩ : ObsMgr Nat) 100).1 101).1 102).1
      0).observers = some 102 ∧
    ObserverManager.getObserver (ObserverManager.eraseObserver
      (ObserverManager.addObserver (ObserverManager.addObserver
        (ObserverManager.addObserver (⟨[], 0⟩ : ObsMgr Nat) 100).1 101).1 102).1
      0) 2 = some none ∧
    ObserverManager.getObserver (ObserverManager.eraseObserver
      (ObserverManager.addObserver (ObserverManager.addObserver
        (ObserverManager.addObserver (⟨[], 0⟩ : ObsMgr Nat) 100).1 101).1 102).1
      0) 0 = none := by
  decide

/-! ## Vertex insertion (ProcessUnit_Base.h, IfVertex.h) -/

/-- `ProcessUnit_Base::addVertex`: emplace the newly constructed vertex under
its id and return the id.  The `emplace` result is discarded, so nothing is
reported on a duplicate id.  Components: new vertex map, returned id,
whether an error was reported. -/
def puAddVertex (vertices : List (Nat × Nat)) (id newVtx : Nat) :
    List (Nat × Nat) × Nat × Bool :=
  let tmp := mapEmplace id newVtx vertices
  (tmp.1, id, false)

/-- `IfVertex::ThenPath::addVertex` (and the identical
`ElsePath::addVertex`): emplace the newly constructed vertex under its id
and report a fatal error when it was not inserted.  Components: new vertex
map, whether an error was reported. -/
def pathAddVertex (vertices : List (Nat × Nat)) (id newVtx : Nat) :
    List (Nat × Nat) × Bool :=
  let tmp := mapEmplace id newVtx vertices
  (tmp.1, !tmp.2)

/-- Counterexample to claim C8 as stated: adding vertex 9 under the id 3
already used in a processing unit's vertex map reports no error — the
emplace result is silently discarded, so only the if-path scopes fail
fatally. -/
theorem C8_counterexample :
    ¬ ∀ (vertices : List (Nat × Nat)) (id newVtx oldVtx : Nat),
        mapAt id vertices = some oldVtx →
        (pathAddVertex vertices id newVtx).2 = true ∧
        (puAddVertex vertices id newVtx).2.2 = true := by
  intro h
  exact absurd ((h [(3, 7)] 3 9 7 (by decide)).2) (by decide)

lemma mapEmplace_present {A : Type} (k : Nat) (v w : A) (l : List (Nat × A))
    (h : mapAt k l = some w) : mapEmplace k v l = (l, false) := by
  unfold mapEmplace
  rw [h]

/-- Claim C8, amended: adding a vertex under an id that already exists in an
if-vertex then/else path reports a fatal build-time error and leaves the
stored vertex unchanged; in a processing unit's vertex map the duplicate is
likewise ignored (the stored vertex is unchanged and the id is returned),
but no error is reported. -/
theorem C8_duplicate_vertex (vertices : List (Nat × Nat)) (id newVtx oldVtx : Nat)
    (h : mapAt id vertices = some oldVtx) :
    (pathAddVertex vertices id newVtx).2 = true ∧
    (pathAddVertex vertices id newVtx).1 = vertices ∧
    mapAt id (pathAddVertex vertices id newVtx).1 = some oldVtx ∧
    (puAddVertex vertices id newVtx).2.2 = false ∧
    (puAddVertex vertices id newVtx).1 = vertices ∧
    (puAddVertex vertices id newVtx).2.1 = id := by
  unfold pathAddVertex puAddVertex
  rw [mapEmplace_present id newVtx oldVtx vertices h]
  exact ⟨rfl, rfl, h, rfl, rfl, rfl⟩

/-- Witness for the amended C8 at a concrete duplicate insertion. -/
theorem C8_duplicate_vertex_witness :
    (pathAddVertex [(3, 7)] 3 9).2 = true ∧
    (pathAddVertex [(3, 7)] 3 9).1 = [(3, 7)] ∧
    (puAddVertex [(3, 7)] 3 9).2.2 = false ∧
    (puAddVertex [(3, 7)] 3 9).1 = [(3, 7)] := by
  obtain ⟨h1, h2, _, h4, h5, _⟩ := C8_duplicate_vertex [(3, 7)] 3 9 7 (by decide)
  exact ⟨h1, h2, h4, h5⟩

/-! ## Transaction validation (Interconnect_Base.cpp) -/

/-- TLM response status values used by `checkForValidDataPackage`. -/
inductive TlmResponse where
  | incomplete
  | ok
  | genericError
  | byteEnableError
  deriving DecidableEq, Repr

/-- A `tlm_generic_payload` transaction with the fields the interconnect
touches; pointers are abstract addresses. -/
structure GenericPayload where
  command : Nat
  address : Nat
  dataPtr : Option Nat
  dataLength : Nat
  byteEnablePtr : Option Nat
  byteEnableLength : Nat
  streamingWidth : Nat
  dmiAllowed : Bool
  responseStatus : TlmResponse
  deriving DecidableEq, Repr

/-- `Interconnect_Base::checkForValidDataPackage`: reject a data length
exceeding the streaming width (generic error response) and a present
byte-enable pointer (byte-enable error response), returning false; otherwise
set the OK response and return true. -/
def checkForValidDataPackage (t : GenericPayload) : GenericPayload × Bool :=
  if t.dataLength > t.streamingWidth then
    ({ t with responseStatus := TlmResponse.genericError }, false)
  else if t.byteEnablePtr ≠ none then
    ({ t with responseStatus := TlmResponse.byteEnableError }, false)
  else
    ({ t with responseStatus := TlmResponse.ok }, true)

/-- Counterexample to claim C9 as stated: a transaction whose streaming
width (8) exceeds its data length (4), with no byte enable, is accepted by
the code (OK response, returns true), while the claim calls it invalid. -/
theorem C9_counterexample :
    ¬ ∀ t : GenericPayload,
        ((checkForValidDataPackage t).2 = false ↔
          (t.streamingWidth > t.dataLength ∨ t.byteEnablePtr ≠ none)) := by
  intro h
  exact absurd ((h ⟨0, 0, none, 4, none, 0, 8, false, TlmResponse.incomplete⟩).mpr
    (Or.inl (by decide))) (by decide)

/-- Claim C9, amended: `checkForValidDataPackage` returns false and sets an
error response exactly when the data length exceeds the streaming width
(generic error, checked first) or a byte-enable pointer is present
(byte-enable error); otherwise it sets the OK response and returns true; it
never unwinds and mutates no other transaction field. -/
theorem C9_valid_data_package (t : GenericPayload) :
    ((checkForValidDataPackage t).2 = false ↔
      (t.dataLength > t.streamingWidth ∨ t.byteEnablePtr ≠ none)) ∧
    (checkForValidDataPackage t).1.responseStatus =
      (if t.dataLength > t.streamingWidth then TlmResponse.genericError
       else if t.byteEnablePtr ≠ none then TlmResponse.byteEnableError
       else TlmResponse.ok) ∧
    ((checkForValidDataPackage t).2 = true ↔
      (checkForValidDataPackage t).1.responseStatus = TlmResponse.ok) ∧
    (checkForValidDataPackage t).1.command = t.command ∧
    (checkForValidDataPackage t).1.address = t.address ∧
    (checkForValidDataPackage t).1.dataPtr = t.dataPtr ∧
    (checkForValidDataPackage t).1.dataLength = t.dataLength ∧
    (checkForValidDataPackage t).1.byteEnablePtr = t.byteEnablePtr ∧
    (checkForValidDataPackage t).1.byteEnableLength = t.byteEnableLength ∧
    (checkForValidDataPackage t).1.streamingWidth = t.streamingWidth ∧
    (checkForValidDataPackage t).1.dmiAllowed = t.dmiAllowed := by
  unfold checkForValidDataPackage
  by_cases h1 : t.dataLength > t.streamingWidth
  · simp [h1]
  · by_cases h2 : t.byteEnablePtr = none
    · simp [h1, h2]
    · simp [h1, h2]

/-! ## Payload pool (PayloadManager.cpp) -/

/-- A default-constructed `tlm_generic_payload` (command
`TLM_IGNORE_COMMAND`, modelled as 2, all other fields zeroed). -/
def defaultPayload : GenericPayload :=
  ⟨2, 0, none, 0, none, 0, 0, false, TlmResponse.incomplete⟩

/-- State of a `PayloadManager`: the free pool (whose slots hold either a
reclaimed payload or the null pointer written on allocation), the global
pool of every constructed payload, and the free-object index
`m_poolTobjIndex`. -/
structure PayloadMgr where
  payloadFreePool : List (Option GenericPayload)
  globalPayloadPool : List GenericPayload
  poolTobjIndex : Int
  deriving DecidableEq, Repr

/-- The `PayloadManager` constructor: cleared pools and index `-1`. -/
def PayloadMgr.init : PayloadMgr := ⟨[], [], -1⟩

/-- `PayloadManager::allocate`: with a negative index construct a new
payload and append it to the global pool; otherwise hand out the free-pool
slot at the index, null that slot and decrement the index.  (The routing
extension attached to the result is outside this model.) -/
def PayloadMgr.allocate (m : PayloadMgr) : PayloadMgr × GenericPayload :=
  if 0 > m.poolTobjIndex then
    (⟨m.payloadFreePool, m.globalPayloadPool ++ [defaultPayload], m.poolTobjIndex⟩,
      defaultPayload)
  else
    (⟨m.payloadFreePool.set m.poolTobjIndex.toNat none, m.globalPayloadPool,
        m.poolTobjIndex - 1⟩,
      (m.payloadFreePool.getD m.poolTobjIndex.toNat none).getD defaultPayload)

/-- The attribute resets `PayloadManager::free` applies to the reclaimed
payload: ignore command, zeroed address, null pointers, zero lengths and
width, no DMI, incomplete response. -/
def resetPayload (_ : GenericPayload) : GenericPayload :=
  ⟨2, 0, none, 0, none, 0, 0, false, TlmResponse.incomplete⟩

/-- `PayloadManager::free`: reset the payload attributes, pre-increment the
index, and either grow the free pool (when it is empty or too short) or
write the reclaimed object into the slot at the new index. -/
def PayloadMgr.free (m : PayloadMgr) (obj : GenericPayload) : PayloadMgr :=
  if m.payloadFreePool = []
      ∨ m.poolTobjIndex + 1 > (m.payloadFreePool.length : Int) - 1 then
    ⟨m.payloadFreePool ++ [some (resetPayload obj)], m.globalPayloadPool,
      m.poolTobjIndex + 1⟩
  else
    ⟨m.payloadFreePool.set (m.poolTobjIndex + 1).toNat (some (resetPayload obj)),
      m.globalPayloadPool, m.poolTobjIndex + 1⟩

/-- `PayloadManager::getNumberOfFreeObjects`: zero for a negative index,
otherwise the index itself. -/
def PayloadMgr.getNumberOfFreeObjects (m : PayloadMgr) : Nat :=
  if 0 > m.poolTobjIndex then 0 else m.poolTobjIndex.toNat

/-- An allocate/free call sequence against one payload manager. -/
inductive PMOp where
  | alloc
  | free (obj : GenericPayload)

/-- Run a call sequence against a manager. -/
def runPM : PayloadMgr → List PMOp → PayloadMgr
  | m, [] => m
  | m, PMOp.alloc :: ops => runPM (m.allocate).1 ops
  | m, PMOp.free obj :: ops => runPM (m.free obj) ops

/-- Invariant of the payload manager: the index stays at least `-1` and
below the free-pool length, and a free-pool slot holds a payload exactly
when its position is at most the index. -/
def PMInv (m : PayloadMgr) : Prop :=
  -1 ≤ m.poolTobjIndex ∧
  m.poolTobjIndex < (m.payloadFreePool.length : Int) ∧
  ∀ i : Nat, i < m.payloadFreePool.length →
    ((m.payloadFreePool.getD i none).isSome = true ↔ (i : Int) ≤ m.poolTobjIndex)

lemma PMInv_mk (fp : List (Option GenericPayload)) (g : List GenericPayload) (idx : Int)
    (h1 : -1 ≤ idx) (h2 : idx < (fp.length : Int))
    (h3 : ∀ i : Nat, i < fp.length →
      ((fp.getD i none).isSome = true ↔ (i : Int) ≤ idx)) :
    PMInv ⟨fp, g, idx⟩ := ⟨h1, h2, h3⟩

lemma allocate_neg (m : PayloadMgr) (h : m.poolTobjIndex < 0) :
    (m.allocate).1 = ⟨m.payloadFreePool, m.globalPayloadPool ++ [defaultPayload],
      m.poolTobjIndex⟩ := by
  unfold PayloadMgr.allocate
  rw [if_pos h]

lemma allocate_nonneg (m : PayloadMgr) (h : 0 ≤ m.poolTobjIndex) :
    (m.allocate).1 = ⟨m.payloadFreePool.set m.poolTobjIndex.toNat none,
      m.globalPayloadPool, m.poolTobjIndex - 1⟩ := by
  unfold PayloadMgr.allocate
  rw [if_neg (by omega)]

lemma free_grow (m : PayloadMgr) (obj : GenericPayload)
    (h : m.payloadFreePool = []
      ∨ m.poolTobjIndex + 1 > (m.payloadFreePool.length : Int) - 1) :
    m.free obj = ⟨m.payloadFreePool ++ [some (resetPayload obj)],
      m.globalPayloadPool, m.poolTobjIndex + 1⟩ := by
  unfold PayloadMgr.free
  rw [if_pos h]

lemma free_slot (m : PayloadMgr) (obj : GenericPayload)
    (h : ¬(m.payloadFreePool = []
      ∨ m.poolTobjIndex + 1 > (m.payloadFreePool.length : Int) - 1)) :
    m.free obj = ⟨m.payloadFreePool.set (m.poolTobjIndex + 1).toNat
        (some (resetPayload obj)),
      m.globalPayloadPool, m.poolTobjIndex + 1⟩ := by
  unfold PayloadMgr.free
  rw [if_neg h]

lemma allocate_inv (m : PayloadMgr) (h : PMInv m) : PMInv (m.allocate).1 := by
  obtain ⟨h1, h2, h3⟩ := h
  by_cases hidx : m.poolTobjIndex < 0
  · rw [allocate_neg m hidx]
    exact PMInv_mk _ _ _ h1 h2 h3
  · push_neg at hidx
    rw [allocate_nonneg m hidx]
    have hlen : m.poolTobjIndex.toNat < m.payloadFreePool.length := by omega
    refine PMInv_mk _ _ _ (by omega) (by rw [List.length_set]; omega) ?_
    intro i hi
    rw [List.length_set] at hi
    by_cases hie : i = m.poolTobjIndex.toNat
    · subst hie
      rw [List.getD_eq_getElem?_getD, List.getElem?_set_eq_of_lt _ hlen]
      simp only [Option.getD_some, Option.isSome_none]
      constructor
      · intro hcon
        exact absurd hcon (by simp)
      · intro hcon
        omega
    · rw [List.getD_eq_getElem?_getD, List.getElem?_set_ne (Ne.symm hie),
        ← List.getD_eq_getElem?_getD, h3 i hi]
      constructor <;> intro <;> omega

lemma free_inv (m : PayloadMgr) (obj : GenericPayload) (h : PMInv m) :
    PMInv (m.free obj) := by
  obtain ⟨h1, h2, h3⟩ := h
  by_cases hc : m.payloadFreePool = []
      ∨ m.poolTobjIndex + 1 > (m.payloadFreePool.length : Int) - 1
  · rw [free_grow m obj hc]
    have hfull : m.poolTobjIndex + 1 = (m.payloadFreePool.length : Int) := by
      rcases hc with hc | hc
      · rw [hc] at h2 ⊢
        simp only [List.length_nil, Nat.cast_zero] at h2 ⊢
        omega
      · omega
    refine PMInv_mk _ _ _ (by omega)
      (by rw [List.length_append, List.length_singleton]; push_cast; omega) ?_
    intro i hi
    rw [List.length_append, List.length_singleton] at hi
    by_cases hie : i < m.payloadFreePool.length
    · rw [List.getD_eq_getElem?_getD, List.getElem?_append_left hie,
        ← List.getD_eq_getElem?_getD, h3 i hie]
      constructor <;> intro <;> omega
    · have hieq : i = m.payloadFreePool.length := by omega
      subst hieq
      rw [List.getD_eq_getElem?_getD, List.getElem?_append_right (le_refl _)]
      simp only [Nat.sub_self, List.getElem?_cons_zero, Option.getD_some,
        Option.isSome_some]
      constructor
      · intro
        omega
      · intro
        trivial
  · rw [free_slot m obj hc]
    push_neg at hc
    obtain ⟨hne, hshort⟩ := hc
    have hlenpos : 0 < m.payloadFreePool.length := List.length_pos.mpr hne
    have hlt : (m.poolTobjIndex + 1).toNat < m.payloadFreePool.length := by omega
    refine PMInv_mk _ _ _ (by omega) (by rw [List.length_set]; omega) ?_
    intro i hi
    rw [List.length_set] at hi
    by_cases hie : i = (m.poolTobjIndex + 1).toNat
    · subst hie
      rw [List.getD_eq_getElem?_getD, List.getElem?_set_eq_of_lt _ hlt]
      simp only [Option.getD_some, Option.isSome_some]
      constructor
      · intro
        omega
      · intro
        trivial
    · rw [List.getD_eq_getElem?_getD, List.getElem?_set_ne (Ne.symm hie),
        ← List.getD_eq_getElem?_getD, h3 i hi]
      constructor <;> intro <;> omega

lemma runPM_inv (m : PayloadMgr) (ops : List PMOp) (h : PMInv m) :
    PMInv (runPM m ops) := by
  induction ops generalizing m with
  | nil => exact h
  | cons op rest ih =>
    cases op with
    | alloc => exact ih _ (allocate_inv m h)
    | free obj => exact ih _ (free_inv m obj h)

lemma init_inv : PMInv PayloadMgr.init :=
  PMInv_mk [] [] (-1) (by omega) (by decide) (fun i hi => absurd hi (by simp))

lemma layout_count (l : List (Option GenericPayload)) (k : Int)
    (hlt : k < (l.length : Int))
    (hlay : ∀ i : Nat, i < l.length →
      ((l.getD i none).isSome = true ↔ (i : Int) ≤ k)) :
    l.countP (fun s => s.isSome) = (k + 1).toNat := by
  induction l generalizing k with
  | nil =>
    simp only [List.length_nil, Nat.cast_zero] at hlt
    simp only [List.countP_nil]
    omega
  | cons x xs ih =>
    have hx : (x.isSome = true) ↔ (0 : Int) ≤ k := by
      have h0 := hlay 0 (by simp)
      simpa using h0
    have hxs : ∀ i : Nat, i < xs.length →
        ((xs.getD i none).isSome = true ↔ (i : Int) ≤ k - 1) := by
      intro i hi
      have h2 := hlay (i + 1) (by simp only [List.length_cons]; omega)
      rw [List.getD_cons_succ] at h2
      constructor
      · intro hs
        have h3 := h2.mp hs
        push_cast at h3
        omega
      · intro hle
        apply h2.mpr
        push_cast
        omega
    have hlen : k - 1 < (xs.length : Int) := by
      simp only [List.length_cons] at hlt
      push_cast at hlt
      omega
    rw [List.countP_cons, ih (k - 1) hlen hxs]
    by_cases hk : (0 : Int) ≤ k
    · have hxsome : x.isSome = true := hx.mpr hk
      have hone : (if x.isSome = true then 1 else 0) = 1 := by
        rw [hxsome]
        decide
      rw [hone]
      omega
    · have hxnone : x.isSome = false := by
        cases hxb : x.isSome
        · rfl
        · exact absurd (hx.mp hxb) hk
      have hzero : (if x.isSome = true then 1 else 0) = 0 := by
        rw [hxnone]
        decide
      rw [hzero]
      omega

/-- Claim C10: over any allocate/free sequence against a fresh payload
manager, the reported number of free objects is one less than the number of
reclaimed payloads actually held in the free pool (natural-number
subtraction: with `k ≥ 1` reclaimed objects it reports `k - 1`, with an
empty free pool it reports `0`). -/
theorem C10_free_count_understates (ops : List PMOp) :
    (runPM PayloadMgr.init ops).getNumberOfFreeObjects
      = (runPM PayloadMgr.init ops).payloadFreePool.countP (fun s => s.isSome) - 1 := by
  obtain ⟨h1, h2, h3⟩ := runPM_inv PayloadMgr.init ops init_inv
  rw [layout_count _ _ h2 h3]
  unfold PayloadMgr.getNumberOfFreeObjects
  split
  · omega
  · omega

end VcUtils
